import Mathlib

/-!
# Verification of the DICOM multi-viewer zoom-synchronization core

Shallow embedding of the pane collection state and its operations, translated
from `src/App.tsx` (state operations on the viewer collection) and
`src/Viewer.tsx` (input clamping in `handleZoomChange`, and the display-apply
effect guarded by the 0.01 tolerance).  Zoom levels are modelled as rationals;
pane identifiers are the decimal strings the code produces with `toString`.
-/

namespace DicomViewer

/-- One viewer pane's state, from the `ViewerData` interface in `App.tsx`:
`id : string`, `zoomLevel : number`, `syncZoom : boolean`. -/
structure ViewerData where
  id : String
  zoomLevel : ℚ
  syncZoom : Bool
deriving DecidableEq, Repr

/-- JavaScript `Array.prototype.findIndex`, returning `none` instead of `-1`:
index of the first element satisfying the predicate. -/
def findIndex (p : α → Bool) : List α → Option Nat
  | [] => none
  | a :: l => if p a then some 0 else (findIndex p l).map (· + 1)

/-- `reorderViewerIds` (`App.tsx` lines 35-40) maps each viewer to a copy whose
id is its position plus one, rendered in decimal; `reorderFrom k` is the body of
that map running from position `k`. -/
def reorderFrom (k : Nat) : List ViewerData → List ViewerData
  | [] => []
  | v :: rest => { v with id := toString (k + 1) } :: reorderFrom (k + 1) rest

/-- `reorderViewerIds` from `App.tsx`: renumber ids sequentially `"1"`, `"2"`, … -/
def reorderViewerIds (l : List ViewerData) : List ViewerData :=
  reorderFrom 0 l

/-- `addViewer` from `App.tsx` lines 42-50: appends a fresh pane with
`id = (length + 1).toString()`, `zoomLevel = 1`, `syncZoom = false`. -/
def addViewer (l : List ViewerData) : List ViewerData :=
  l ++ [{ id := toString (l.length + 1), zoomLevel := 1, syncZoom := false }]

/-- `removeViewer` from `App.tsx` lines 52-60: filter the pane out, then
renumber the survivors sequentially. -/
def removeViewer (l : List ViewerData) (id : String) : List ViewerData :=
  reorderViewerIds (l.filter (fun v => v.id != id))

/-- The first `map` inside `updateViewerZoom` (`App.tsx` lines 64-66): write
`newZoomLevel` into the pane(s) whose id matches. -/
def setZoomOnId (l : List ViewerData) (id : String) (newZoomLevel : ℚ) :
    List ViewerData :=
  l.map (fun v => if v.id = id then { v with zoomLevel := newZoomLevel } else v)

/-- `otherSyncViewers` (`App.tsx` lines 73-75 and 99-101): panes with a
different id and `syncZoom` enabled. -/
def otherSyncViewers (l : List ViewerData) (id : String) : List ViewerData :=
  l.filter (fun v => v.id != id && v.syncZoom)

/-- The `forEach` loop of `updateViewerZoom` (`App.tsx` lines 78-83): for each
propagation target, find its index in the working array and overwrite that slot
with the target record carrying the new zoom level. -/
def applyToTargets (base targets : List ViewerData) (newZoomLevel : ℚ) :
    List ViewerData :=
  targets.foldl
    (fun acc syncViewer =>
      match findIndex (fun v => v.id == syncViewer.id) acc with
      | some index => acc.set index { syncViewer with zoomLevel := newZoomLevel }
      | none => acc)
    base

/-- `updateViewerZoom` from `App.tsx` lines 62-89: update the originating pane,
then, unless the change came from a sync operation, propagate the new zoom
level to every other sync-enabled pane. -/
def updateViewerZoom (l : List ViewerData) (id : String) (newZoomLevel : ℚ)
    (isFromSync : Bool) : List ViewerData :=
  let updatedViewers := setZoomOnId l id newZoomLevel
  if isFromSync then updatedViewers
  else
    match updatedViewers.find? (fun v => v.id == id) with
    | none => updatedViewers
    | some triggeringViewer =>
      if triggeringViewer.syncZoom then
        applyToTargets updatedViewers (otherSyncViewers updatedViewers id) newZoomLevel
      else updatedViewers

/-- The apply commands (propagation updates) emitted by one `updateViewerZoom`
call, as the target pane ids: the panes written by the `forEach` loop of
`App.tsx` lines 78-83, which run exactly when the call propagates. -/
def zoomCommands (l : List ViewerData) (id : String) (newZoomLevel : ℚ)
    (isFromSync : Bool) : List String :=
  let updatedViewers := setZoomOnId l id newZoomLevel
  if isFromSync then []
  else
    match updatedViewers.find? (fun v => v.id == id) with
    | none => []
    | some triggeringViewer =>
      if triggeringViewer.syncZoom then
        (otherSyncViewers updatedViewers id).map (fun v => v.id)
      else []

/-- `updateViewerSync` from `App.tsx` lines 91-120: write the flag; when
enabling and some other pane is already synced, adopt the first such pane's
zoom level. -/
def updateViewerSync (l : List ViewerData) (id : String) (syncZoom : Bool) :
    List ViewerData :=
  let updatedViewers :=
    l.map (fun v => if v.id = id then { v with syncZoom := syncZoom } else v)
  if syncZoom then
    match otherSyncViewers updatedViewers id with
    | [] => updatedViewers
    | first :: _ =>
      let targetZoom := first.zoomLevel
      match findIndex (fun v => v.id == id) updatedViewers with
      | some currentViewerIndex =>
        match updatedViewers[currentViewerIndex]? with
        | some cur => updatedViewers.set currentViewerIndex { cur with zoomLevel := targetZoom }
        | none => updatedViewers
      | none => updatedViewers
  else updatedViewers

/-- The apply commands emitted by one `updateViewerSync` call: exactly one,
targeting the joining pane, when enabling sync finds another synced pane to
adopt from (`App.tsx` lines 103-115); none otherwise. -/
def syncCommands (l : List ViewerData) (id : String) (syncZoom : Bool) :
    List String :=
  let updatedViewers :=
    l.map (fun v => if v.id = id then { v with syncZoom := syncZoom } else v)
  if syncZoom then
    match otherSyncViewers updatedViewers id with
    | [] => []
    | _ :: _ =>
      match findIndex (fun v => v.id == id) updatedViewers with
      | some _ => [id]
      | none => []
  else []

/-- The clamp of `handleZoomChange` (`Viewer.tsx` line 65):
`Math.max(0.01, Math.min(10, x))`. -/
def clampZoom (x : ℚ) : ℚ :=
  max (1 / 100) (min 10 x)

/-- The full `reportZoom` path of a raw zoom event: `handleZoomChange` clamps
the factor (`Viewer.tsx` lines 60-70), then `onZoomChange` runs
`updateViewerZoom` (`App.tsx` line 158). -/
def reportZoom (l : List ViewerData) (id : String) (factor : ℚ)
    (isEcho : Bool) : List ViewerData :=
  updateViewerZoom l id (clampZoom factor) isEcho

/-- `resetZoom` (`Viewer.tsx` lines 344-362) calls `onZoomChange(1, false)`,
i.e. `updateViewerZoom` with factor `1` and no echo flag. -/
def resetZoom (l : List ViewerData) (id : String) : List ViewerData :=
  updateViewerZoom l id 1 false

/-- The display-apply effect of `Viewer.tsx` lines 319-342, with each pane's
display assumed settled at its previous state value: a pane receives a display
write (`applySyncZoom`) exactly when its new `zoomLevel` prop differs from the
display's current zoom by more than `0.01`. Returns the target ids. -/
def displayApplyTargets (old new : List ViewerData) : List String :=
  new.filterMap (fun v =>
    match old.find? (fun u => u.id == v.id) with
    | some u => if 1 / 100 < |v.zoomLevel - u.zoomLevel| then some v.id else none
    | none => none)

/-- The initial collection (`App.tsx` line 23): one pane, zoom `1`, unsynced. -/
def initialViewers : List ViewerData :=
  [{ id := "1", zoomLevel := 1, syncZoom := false }]

/-- Rehydration from persisted layout (`App.tsx` lines 14-20): the saved panes
with ids forced back to sequential, exactly `reorderViewerIds`. -/
def rehydrateViewers (saved : List ViewerData) : List ViewerData :=
  reorderViewerIds saved

/-- Sequential-id layout from position `k`: the pane at offset `j` carries id
`toString (k + j + 1)`. `seqIdsFrom 0` is the reachable-state id invariant. -/
def seqIdsFrom (k : Nat) : List ViewerData → Prop
  | [] => True
  | v :: rest => v.id = toString (k + 1) ∧ seqIdsFrom (k + 1) rest

/-- Ids are exactly `"1"`, `"2"`, …, `"n"` in collection order. -/
def isSeq (l : List ViewerData) : Prop :=
  seqIdsFrom 0 l

/-- The id projection of a pane collection. -/
def ids (l : List ViewerData) : List String :=
  l.map (fun v => v.id)

/-- The apply commands of the full `reportZoom` path: the propagation targets
of `updateViewerZoom` run at the clamped factor. -/
def reportZoomCommands (l : List ViewerData) (id : String) (factor : ℚ)
    (isEcho : Bool) : List String :=
  zoomCommands l id (clampZoom factor) isEcho

/-- Value of a decimal digit character. -/
def digitVal (c : Char) : Nat :=
  c.toNat - 48

/-- Decode a most-significant-digit-first decimal digit string. -/
def decodeDigits (cs : List Char) : Nat :=
  cs.foldl (fun a c => a * 10 + digitVal c) 0

/-- Numeric value of a pane id string. -/
def natId (s : String) : Nat :=
  decodeDigits s.data

/-- The data-model invariant for zoom: the level lies inside the clamp range. -/
def zoomInRange (w : ViewerData) : Prop :=
  1 / 100 ≤ w.zoomLevel ∧ w.zoomLevel ≤ 10

instance (w : ViewerData) : Decidable (zoomInRange w) :=
  inferInstanceAs (Decidable (1 / 100 ≤ w.zoomLevel ∧ w.zoomLevel ≤ 10))

/-! ### Generic lemmas about `findIndex` and `set` -/

theorem findIndex_lt_length {p : α → Bool} :
    ∀ {l : List α} {i : Nat}, findIndex p l = some i → i < l.length := by
  intro l
  induction l with
  | nil => intro i h; simp [findIndex] at h
  | cons a l ih =>
    intro i h
    by_cases hpa : p a = true
    · simp [findIndex, hpa] at h
      simp only [List.length_cons]
      omega
    · simp only [findIndex, hpa, if_false, Option.map_eq_some', Bool.false_eq_true] at h
      obtain ⟨j, hj, rfl⟩ := h
      have := ih hj
      simp only [List.length_cons]
      omega

theorem findIndex_get {p : α → Bool} :
    ∀ {l : List α} {i : Nat} (h : findIndex p l = some i),
      p (l.get ⟨i, findIndex_lt_length h⟩) = true := by
  intro l
  induction l with
  | nil => intro i h; simp [findIndex] at h
  | cons a l ih =>
    intro i h
    by_cases hpa : p a = true
    · have : i = 0 := by simp [findIndex, hpa] at h; omega
      subst this
      simpa using hpa
    · have h' := h
      simp only [findIndex, hpa, if_false, Option.map_eq_some', Bool.false_eq_true] at h'
      obtain ⟨j, hj, rfl⟩ := h'
      simpa using ih hj

theorem findIndex_some_of_mem {p : α → Bool} :
    ∀ {l : List α} {x : α}, x ∈ l → p x = true → ∃ i, findIndex p l = some i := by
  intro l
  induction l with
  | nil => intro x hx; simp at hx
  | cons a l ih =>
    intro x hx hp
    by_cases hpa : p a = true
    · exact ⟨0, by simp [findIndex, hpa]⟩
    · rcases List.mem_cons.mp hx with rfl | hx'
      · exact absurd hp hpa
      · obtain ⟨i, hi⟩ := ih hx' hp
        exact ⟨i + 1, by simp [findIndex, hpa, hi]⟩

theorem set_get_self {l : List α} {i : Nat} (h : i < l.length) :
    l.set i (l.get ⟨i, h⟩) = l := by
  apply List.ext_getElem (by simp)
  intro k hk1 hk2
  rw [List.getElem_set]
  split
  · next heq => subst heq; rfl
  · rfl

/-! ### Uniqueness reasoning from `Nodup` ids -/

theorem uniqueId_of_nodup {l : List ViewerData} (h : (ids l).Nodup)
    {w u : ViewerData} (hw : w ∈ l) (hu : u ∈ l) (heq : w.id = u.id) : w = u :=
  List.inj_on_of_nodup_map h hw hu heq

theorem getElem_id_inj {l : List ViewerData} (h : (ids l).Nodup) {i j : Nat}
    (hi : i < l.length) (hj : j < l.length)
    (heq : (l.get ⟨i, hi⟩).id = (l.get ⟨j, hj⟩).id) : i = j := by
  have hinj := List.nodup_iff_injective_getElem.mp h
  have hi' : i < (ids l).length := by simpa [ids] using hi
  have hj' : j < (ids l).length := by simpa [ids] using hj
  have hfin : (⟨i, hi'⟩ : Fin (ids l).length) = ⟨j, hj'⟩ := by
    apply hinj
    simpa [ids] using heq
  exact congrArg Fin.val hfin

/-- Replacing the unique pane carrying a given id, found by index, is the same
as mapping the replacement over the whole collection guarded by that id. -/
theorem set_eq_map_of_uniqueId {l : List ViewerData} (g : ViewerData → ViewerData)
    (h : (ids l).Nodup) {j : Nat} (hj : j < l.length) :
    l.set j (g (l.get ⟨j, hj⟩)) =
      l.map (fun w => if w.id = (l.get ⟨j, hj⟩).id then g w else w) := by
  apply List.ext_getElem (by simp)
  intro k hk1 hk2
  have hk : k < l.length := by simpa using hk1
  rw [List.getElem_set, List.getElem_map]
  split
  · next heq =>
    subst heq
    simp
  · next hne =>
    have : ¬ (l.get ⟨k, hk⟩).id = (l.get ⟨j, hj⟩).id := by
      intro hid
      exact hne (getElem_id_inj h hk hj hid).symm
    simp only [List.get_eq_getElem] at this
    simp [this]

/-! ### Filter and map interaction -/

theorem filter_map_invariant {f : ViewerData → ViewerData} {p : ViewerData → Bool}
    (hp : ∀ w, p (f w) = p w) (hf : ∀ w, p w = true → f w = w) (l : List ViewerData) :
    (l.map f).filter p = l.filter p := by
  rw [List.filter_map]
  have hpf : p ∘ f = p := funext hp
  rw [hpf]
  calc (l.filter p).map f = (l.filter p).map id := by
        apply List.map_congr_left
        intro x hx
        exact hf x (List.mem_filter.mp hx).2
    _ = l.filter p := List.map_id _

theorem otherSyncViewers_setZoomOnId (l : List ViewerData) (id : String) (v : ℚ) :
    otherSyncViewers (setZoomOnId l id v) id = otherSyncViewers l id := by
  unfold otherSyncViewers setZoomOnId
  apply filter_map_invariant
  · intro w
    by_cases h : w.id = id <;> simp [h]
  · intro w hw
    by_cases h : w.id = id
    · simp [h] at hw
    · simp [h]

theorem ids_setZoomOnId (l : List ViewerData) (id : String) (v : ℚ) :
    ids (setZoomOnId l id v) = ids l := by
  unfold ids setZoomOnId
  rw [List.map_map]
  apply List.map_congr_left
  intro w _
  by_cases h : w.id = id <;> simp [h]

theorem mem_ids_filter {l : List ViewerData} {p : ViewerData → Bool}
    (hnd : (ids l).Nodup) {w : ViewerData} (hw : w ∈ l) :
    w.id ∈ ids (l.filter p) ↔ p w = true := by
  constructor
  · intro h
    simp only [ids, List.mem_map] at h
    obtain ⟨u, hu, hidu⟩ := h
    have humem := (List.mem_filter.mp hu).1
    have hup := (List.mem_filter.mp hu).2
    have huw : u = w := uniqueId_of_nodup hnd humem hw hidu
    rwa [huw] at hup
  · intro h
    simp only [ids, List.mem_map]
    exact ⟨w, List.mem_filter.mpr ⟨hw, h⟩, rfl⟩

theorem ids_filter_nodup {l : List ViewerData} {p : ViewerData → Bool}
    (hnd : (ids l).Nodup) : (ids (l.filter p)).Nodup := by
  unfold ids at hnd ⊢
  exact hnd.sublist (List.Sublist.map _ (List.filter_sublist l))

/-! ### The propagation loop (`forEach` + `findIndex` + assignment) -/

theorem applyToTargets_nil (base : List ViewerData) (v : ℚ) :
    applyToTargets base [] v = base := rfl

theorem applyToTargets_cons_some {base : List ViewerData} {sv : ViewerData}
    {i : Nat} (h : findIndex (fun w => w.id == sv.id) base = some i)
    (ts : List ViewerData) (v : ℚ) :
    applyToTargets base (sv :: ts) v =
      applyToTargets (base.set i { sv with zoomLevel := v }) ts v := by
  simp only [applyToTargets, List.foldl_cons, h]

theorem applyToTargets_cons_none {base : List ViewerData} {sv : ViewerData}
    (h : findIndex (fun w => w.id == sv.id) base = none)
    (ts : List ViewerData) (v : ℚ) :
    applyToTargets base (sv :: ts) v = applyToTargets base ts v := by
  simp only [applyToTargets, List.foldl_cons, h]

/-- Key bridge: with duplicate-free ids, the propagation loop over a
duplicate-free target list drawn from the collection is the pointwise write of
the new zoom level to exactly the panes whose id occurs among the targets. -/
theorem applyToTargets_eq_map {v : ℚ} :
    ∀ {ts base : List ViewerData},
      (ids base).Nodup → (∀ sv ∈ ts, sv ∈ base) → (ids ts).Nodup →
      applyToTargets base ts v =
        base.map (fun w => if w.id ∈ ids ts then { w with zoomLevel := v } else w) := by
  intro ts
  induction ts with
  | nil =>
    intro base _ _ _
    simp [applyToTargets_nil, ids]
  | cons sv rest ih =>
    intro base hnd hsub hts
    have hsv : sv ∈ base := hsub sv (List.mem_cons_self _ _)
    obtain ⟨i, hfi⟩ :=
      findIndex_some_of_mem (p := fun w => w.id == sv.id) hsv (by simp)
    have hi := findIndex_lt_length hfi
    have hidi : (base.get ⟨i, hi⟩).id = sv.id := by
      have h := findIndex_get hfi
      simpa using h
    have hbi : base.get ⟨i, hi⟩ = sv :=
      uniqueId_of_nodup hnd (List.get_mem base i hi) hsv hidi
    have hcons := List.nodup_cons.mp (show (sv.id :: ids rest).Nodup from hts)
    have hsvrest : sv.id ∉ ids rest := hcons.1
    rw [applyToTargets_cons_some hfi]
    have hset : base.set i { sv with zoomLevel := v } =
        base.map (fun w => if w.id = sv.id then { w with zoomLevel := v } else w) := by
      have hgen := set_eq_map_of_uniqueId (fun w => { w with zoomLevel := v }) hnd hi
      rw [hbi] at hgen
      exact hgen
    rw [hset]
    have hids : ids (base.map (fun w => if w.id = sv.id then { w with zoomLevel := v } else w))
        = ids base := by
      unfold ids
      rw [List.map_map]
      apply List.map_congr_left
      intro w _
      by_cases h : w.id = sv.id <;> simp [h]
    have hnd' : (ids (base.map
        (fun w => if w.id = sv.id then { w with zoomLevel := v } else w))).Nodup := by
      rw [hids]; exact hnd
    have hsub' : ∀ u ∈ rest,
        u ∈ base.map (fun w => if w.id = sv.id then { w with zoomLevel := v } else w) := by
      intro u hu
      have hune : u.id ≠ sv.id := by
        intro h
        exact hsvrest (h ▸ List.mem_map_of_mem (fun w => w.id) hu)
      have humem : u ∈ base := hsub u (List.mem_cons_of_mem _ hu)
      have hmm := List.mem_map_of_mem
        (fun w => if w.id = sv.id then { w with zoomLevel := v } else w) humem
      simpa [hune] using hmm
    rw [ih hnd' hsub' hcons.2, List.map_map]
    apply List.map_congr_left
    intro w _
    simp only [Function.comp_apply]
    by_cases h1 : w.id = sv.id
    · have hin : w.id ∈ ids (sv :: rest) := by
        show w.id ∈ sv.id :: ids rest
        rw [h1]
        exact List.mem_cons_self _ _
      have hnotin : w.id ∉ ids rest := by rw [h1]; exact hsvrest
      rw [if_pos h1, if_neg (show ¬ (ViewerData.id { w with zoomLevel := v } ∈ ids rest) by
        simpa using hnotin), if_pos hin]
    · rw [if_neg h1]
      by_cases h2 : w.id ∈ ids rest
      · have hin : w.id ∈ ids (sv :: rest) := by
          show w.id ∈ sv.id :: ids rest
          exact List.mem_cons_of_mem _ h2
        rw [if_pos h2, if_pos hin]
      · have hnotin : w.id ∉ ids (sv :: rest) := by
          show ¬ w.id ∈ sv.id :: ids rest
          intro hc
          rcases List.mem_cons.mp hc with hc1 | hc2
          · exact h1 hc1
          · exact h2 hc2
        rw [if_neg h2, if_neg hnotin]

/-! ### Characterizations of `updateViewerZoom` -/

theorem updateViewerZoom_echo (l : List ViewerData) (id : String) (v : ℚ) :
    updateViewerZoom l id v true = setZoomOnId l id v := rfl

theorem zoomCommands_echo (l : List ViewerData) (id : String) (v : ℚ) :
    zoomCommands l id v true = [] := rfl

/-- Auxiliary: what `find?` inside `updateViewerZoom` returns, given a pane
with the originating id in the collection. -/
theorem find?_setZoomOnId {l : List ViewerData} {id : String} {v : ℚ}
    (hnd : (ids l).Nodup) {orig : ViewerData}
    (horig : orig ∈ l) (hid : orig.id = id) :
    (setZoomOnId l id v).find? (fun u => u.id == id) =
      some { orig with zoomLevel := v } := by
  cases hf : (setZoomOnId l id v).find? (fun u => u.id == id) with
  | none =>
    exfalso
    rw [List.find?_eq_none] at hf
    refine hf { orig with zoomLevel := v } ?_ (by simp [hid])
    have := List.mem_map_of_mem
      (fun w => if w.id = id then { w with zoomLevel := v } else w) horig
    simpa [setZoomOnId, hid] using this
  | some tv =>
    have htvp := List.find?_some hf
    have htvid : tv.id = id := by simpa using htvp
    have htvmem : tv ∈ setZoomOnId l id v := List.mem_of_find?_eq_some hf
    obtain ⟨w', hw', hfw'⟩ := List.mem_map.mp htvmem
    have hw'id : w'.id = id := by
      by_cases h : w'.id = id
      · exact h
      · rw [← htvid, ← hfw']
        simp [h]
    have hworig : w' = orig := uniqueId_of_nodup hnd hw' horig (hw'id.trans hid.symm)
    subst hworig
    rw [← hfw']
    simp [hw'id]

theorem updateViewerZoom_unsynced {l : List ViewerData} {id : String} {v : ℚ}
    (h : ∀ w ∈ l, w.id = id → w.syncZoom = false) :
    updateViewerZoom l id v false = setZoomOnId l id v := by
  unfold updateViewerZoom
  cases hf : (setZoomOnId l id v).find? (fun u => u.id == id) with
  | none => simp [hf]
  | some tv =>
    have htvp := List.find?_some hf
    have htvid : tv.id = id := by simpa using htvp
    have htvmem : tv ∈ setZoomOnId l id v := List.mem_of_find?_eq_some hf
    obtain ⟨w', hw', hfw'⟩ := List.mem_map.mp htvmem
    have hw'id : w'.id = id := by
      by_cases hc : w'.id = id
      · exact hc
      · rw [← htvid, ← hfw']
        simp [hc]
    have hsyncf : tv.syncZoom = false := by
      rw [← hfw']
      have := h w' hw' hw'id
      simp [hw'id, this]
    simp [hf, hsyncf]

theorem zoomCommands_unsynced {l : List ViewerData} {id : String} {v : ℚ}
    (h : ∀ w ∈ l, w.id = id → w.syncZoom = false) :
    zoomCommands l id v false = [] := by
  unfold zoomCommands
  cases hf : (setZoomOnId l id v).find? (fun u => u.id == id) with
  | none => simp [hf]
  | some tv =>
    have htvp := List.find?_some hf
    have htvid : tv.id = id := by simpa using htvp
    have htvmem : tv ∈ setZoomOnId l id v := List.mem_of_find?_eq_some hf
    obtain ⟨w', hw', hfw'⟩ := List.mem_map.mp htvmem
    have hw'id : w'.id = id := by
      by_cases hc : w'.id = id
      · exact hc
      · rw [← htvid, ← hfw']
        simp [hc]
    have hsyncf : tv.syncZoom = false := by
      rw [← hfw']
      have := h w' hw' hw'id
      simp [hw'id, this]
    simp [hf, hsyncf]

/-- With duplicate-free ids and a sync-enabled originating pane present,
`updateViewerZoom` without the echo flag writes the new zoom level to the
originator and to every sync-enabled pane, leaving all other panes unchanged. -/
theorem updateViewerZoom_char {l : List ViewerData} {id : String} {v : ℚ}
    (hnd : (ids l).Nodup) {orig : ViewerData}
    (horig : orig ∈ l) (hid : orig.id = id) (hsync : orig.syncZoom = true) :
    updateViewerZoom l id v false =
      l.map (fun w =>
        if w.id = id ∨ w.syncZoom = true then { w with zoomLevel := v } else w) := by
  have hf := find?_setZoomOnId (v := v) hnd horig hid
  have hnd' : (ids (setZoomOnId l id v)).Nodup := by
    rw [ids_setZoomOnId]; exact hnd
  have hupd : updateViewerZoom l id v false =
      applyToTargets (setZoomOnId l id v)
        (otherSyncViewers (setZoomOnId l id v) id) v := by
    unfold updateViewerZoom
    simp [hf, hsync]
  rw [hupd]
  unfold otherSyncViewers
  rw [applyToTargets_eq_map hnd'
    (fun sv hsv => (List.mem_filter.mp hsv).1) (ids_filter_nodup hnd')]
  show List.map _
      (List.map (fun u => if u.id = id then { u with zoomLevel := v } else u) l) = _
  rw [List.map_map]
  apply List.map_congr_left
  intro w hw
  simp only [Function.comp_apply]
  have hmem : (if w.id = id then { w with zoomLevel := v } else w) ∈ setZoomOnId l id v :=
    List.mem_map_of_mem _ hw
  have hiff := mem_ids_filter (p := fun u => u.id != id && u.syncZoom) hnd' hmem
  by_cases h1 : w.id = id
  · have hpf : ((if w.id = id then { w with zoomLevel := v } else w).id != id
        && (if w.id = id then { w with zoomLevel := v } else w).syncZoom) = false := by
      simp [h1]
    have hnotas : (if w.id = id then { w with zoomLevel := v } else w).id ∉
        ids ((setZoomOnId l id v).filter (fun u => u.id != id && u.syncZoom)) := by
      intro hc
      have hx := hiff.mp hc
      simp only [hpf, Bool.false_eq_true] at hx
    rw [if_neg hnotas, if_pos h1, if_pos (Or.inl h1)]
  · by_cases h2 : w.syncZoom = true
    · have hpf : ((if w.id = id then { w with zoomLevel := v } else w).id != id
          && (if w.id = id then { w with zoomLevel := v } else w).syncZoom) = true := by
        simp [h1, h2]
      have has : (if w.id = id then { w with zoomLevel := v } else w).id ∈
          ids ((setZoomOnId l id v).filter (fun u => u.id != id && u.syncZoom)) :=
        hiff.mpr hpf
      rw [if_pos has, if_neg h1, if_pos (Or.inr h2)]
    · have hpf : ((if w.id = id then { w with zoomLevel := v } else w).id != id
          && (if w.id = id then { w with zoomLevel := v } else w).syncZoom) = false := by
        simp [h1, h2]
      have hnotas : (if w.id = id then { w with zoomLevel := v } else w).id ∉
          ids ((setZoomOnId l id v).filter (fun u => u.id != id && u.syncZoom)) := by
        intro hc
        have hx := hiff.mp hc
        simp only [hpf, Bool.false_eq_true] at hx
      rw [if_neg hnotas, if_neg h1, if_neg (by
        intro hc
        rcases hc with hc | hc
        · exact h1 hc
        · exact h2 hc)]

/-- The branch equations of `updateViewerZoom` when not propagating. -/
theorem updateViewerZoom_find_none {l : List ViewerData} {id : String} {v : ℚ}
    (hf : (setZoomOnId l id v).find? (fun u => u.id == id) = none) :
    updateViewerZoom l id v false = setZoomOnId l id v := by
  unfold updateViewerZoom
  simp [hf]

theorem updateViewerZoom_find_nosync {l : List ViewerData} {id : String} {v : ℚ}
    {tv : ViewerData} (hf : (setZoomOnId l id v).find? (fun u => u.id == id) = some tv)
    (hs : tv.syncZoom = false) :
    updateViewerZoom l id v false = setZoomOnId l id v := by
  unfold updateViewerZoom
  simp [hf, hs]

theorem updateViewerZoom_find_sync {l : List ViewerData} {id : String} {v : ℚ}
    {tv : ViewerData} (hf : (setZoomOnId l id v).find? (fun u => u.id == id) = some tv)
    (hs : tv.syncZoom = true) :
    updateViewerZoom l id v false =
      applyToTargets (setZoomOnId l id v) (otherSyncViewers (setZoomOnId l id v) id) v := by
  unfold updateViewerZoom
  simp [hf, hs]

/-- No apply command of a zoom propagation ever targets the originating pane:
the propagation set is filtered on a different id. -/
theorem not_mem_otherSyncViewers_ids (l : List ViewerData) (id : String) :
    id ∉ (otherSyncViewers l id).map (fun v => v.id) := by
  intro hc
  obtain ⟨u, hu, huid⟩ := List.mem_map.mp hc
  have := (List.mem_filter.mp hu).2
  rw [huid] at this
  simp at this

/-! ### Characterizations of `updateViewerSync` -/

theorem updateViewerSync_disable (l : List ViewerData) (id : String) :
    updateViewerSync l id false =
      l.map (fun v => if v.id = id then { v with syncZoom := false } else v) := rfl

theorem syncCommands_disable (l : List ViewerData) (id : String) :
    syncCommands l id false = [] := rfl

theorem otherSyncViewers_flagMap (l : List ViewerData) (id : String) (b : Bool) :
    otherSyncViewers
        (l.map (fun v => if v.id = id then { v with syncZoom := b } else v)) id
      = otherSyncViewers l id := by
  unfold otherSyncViewers
  apply filter_map_invariant
  · intro w
    by_cases h : w.id = id <;> simp [h]
  · intro w hw
    by_cases h : w.id = id
    · simp [h] at hw
    · simp [h]

theorem ids_flagMap (l : List ViewerData) (id : String) (b : Bool) :
    ids (l.map (fun v => if v.id = id then { v with syncZoom := b } else v)) = ids l := by
  unfold ids
  rw [List.map_map]
  apply List.map_congr_left
  intro w _
  by_cases h : w.id = id <;> simp [h]

theorem otherSyncViewers_eq_nil {l : List ViewerData} {id : String}
    (h : ∀ w ∈ l, w.id ≠ id → w.syncZoom = false) :
    otherSyncViewers l id = [] := by
  unfold otherSyncViewers
  rw [List.filter_eq_nil_iff]
  intro w hw
  by_cases hc : w.id = id
  · simp [hc]
  · simp [hc, h w hw hc]

/-- Enabling sync when no other pane is synced only writes the flag. -/
theorem updateViewerSync_enable_alone {l : List ViewerData} {id : String}
    (h : ∀ w ∈ l, w.id ≠ id → w.syncZoom = false) :
    updateViewerSync l id true =
      l.map (fun v => if v.id = id then { v with syncZoom := true } else v) := by
  simp only [updateViewerSync, if_true]
  rw [otherSyncViewers_flagMap, otherSyncViewers_eq_nil h]

theorem syncCommands_enable_alone {l : List ViewerData} {id : String}
    (h : ∀ w ∈ l, w.id ≠ id → w.syncZoom = false) :
    syncCommands l id true = [] := by
  simp only [syncCommands, if_true]
  rw [otherSyncViewers_flagMap, otherSyncViewers_eq_nil h]

/-- Enabling sync with the target pane present and at least one other synced
pane: the target adopts the zoom level of the first other synced pane; every
other pane is untouched. -/
theorem updateViewerSync_char {l : List ViewerData} {id : String}
    (hnd : (ids l).Nodup) {orig : ViewerData} (horig : orig ∈ l) (hid : orig.id = id)
    {first : ViewerData} {rest' : List ViewerData}
    (hos : otherSyncViewers l id = first :: rest') :
    updateViewerSync l id true =
      l.map (fun w => if w.id = id
        then { w with zoomLevel := first.zoomLevel, syncZoom := true } else w) := by
  have hmemu : (if orig.id = id then { orig with syncZoom := true } else orig) ∈
      l.map (fun v => if v.id = id then { v with syncZoom := true } else v) :=
    List.mem_map_of_mem _ horig
  obtain ⟨j, hfj⟩ := findIndex_some_of_mem (p := fun v => v.id == id) hmemu (by simp [hid])
  have hj := findIndex_lt_length hfj
  have hgetid : ((l.map (fun v => if v.id = id then { v with syncZoom := true } else v)).get
      ⟨j, hj⟩).id = id := by
    have hg := findIndex_get hfj
    simpa using hg
  have heq : updateViewerSync l id true =
      (l.map (fun v => if v.id = id then { v with syncZoom := true } else v)).set j
        { (l.map (fun v => if v.id = id then { v with syncZoom := true } else v)).get ⟨j, hj⟩
          with zoomLevel := first.zoomLevel } := by
    simp only [updateViewerSync, if_true, otherSyncViewers_flagMap, hos, hfj,
      List.getElem?_eq_getElem hj]
    rfl
  rw [heq]
  have hndu : (ids (l.map (fun v => if v.id = id then { v with syncZoom := true } else v))).Nodup := by
    rw [ids_flagMap]; exact hnd
  have hset := set_eq_map_of_uniqueId (fun w => { w with zoomLevel := first.zoomLevel }) hndu hj
  rw [hset, hgetid, List.map_map]
  apply List.map_congr_left
  intro w _
  by_cases h : w.id = id <;> simp [h]

/-- With the target pane present and another synced pane to adopt from,
enabling sync emits exactly one apply command, targeting the joining pane. -/
theorem syncCommands_char {l : List ViewerData} {id : String}
    {orig : ViewerData} (horig : orig ∈ l) (hid : orig.id = id)
    {first : ViewerData} {rest' : List ViewerData}
    (hos : otherSyncViewers l id = first :: rest') :
    syncCommands l id true = [id] := by
  have hmemu : (if orig.id = id then { orig with syncZoom := true } else orig) ∈
      l.map (fun v => if v.id = id then { v with syncZoom := true } else v) :=
    List.mem_map_of_mem _ horig
  obtain ⟨j, hfj⟩ := findIndex_some_of_mem (p := fun v => v.id == id) hmemu (by simp [hid])
  simp only [syncCommands, if_true, otherSyncViewers_flagMap, hos, hfj]

/-! ### Decoding the decimal ids produced by `toString` -/

theorem digitVal_digitChar {k : Nat} (h : k < 10) :
    digitVal (Nat.digitChar k) = k := by
  interval_cases k <;> decide

theorem toDigitsCore_append (b : Nat) :
    ∀ (fuel n : Nat) (ds : List Char),
      Nat.toDigitsCore b fuel n ds = Nat.toDigitsCore b fuel n [] ++ ds := by
  intro fuel
  induction fuel with
  | zero => intro n ds; rfl
  | succ f ih =>
    intro n ds
    simp only [Nat.toDigitsCore]
    by_cases h : n / b = 0
    · simp [h]
    · simp only [h, if_false]
      rw [ih (n / b) (Nat.digitChar (n % b) :: ds), ih (n / b) [Nat.digitChar (n % b)]]
      simp

theorem decode_foldl_toDigitsCore :
    ∀ (fuel n a : Nat), n < fuel →
      (Nat.toDigitsCore 10 fuel n []).foldl (fun acc c => acc * 10 + digitVal c) a =
        a * 10 ^ (Nat.toDigitsCore 10 fuel n []).length + n := by
  intro fuel
  induction fuel with
  | zero => intro n a h; omega
  | succ f ih =>
    intro n a h
    simp only [Nat.toDigitsCore]
    by_cases h0 : n / 10 = 0
    · have hn10 : n < 10 := by omega
      have hmod : n % 10 = n := Nat.mod_eq_of_lt hn10
      simp only [h0, if_true, List.foldl_cons, List.foldl_nil, List.length_cons,
        List.length_nil]
      rw [digitVal_digitChar (by omega : n % 10 < 10), hmod, pow_one]
    · simp only [h0, if_false]
      rw [toDigitsCore_append, List.foldl_append, List.length_append]
      have hrec : n / 10 < f := by
        have hpos : 0 < n := by
          by_contra hc
          have : n = 0 := by omega
          subst this
          simp at h0
        have h1 : n / 10 < n := Nat.div_lt_self hpos (by norm_num)
        omega
      rw [ih (n / 10) a hrec]
      simp only [List.foldl_cons, List.foldl_nil, List.length_cons, List.length_nil]
      rw [digitVal_digitChar (Nat.mod_lt n (by norm_num))]
      have hdm : n / 10 * 10 + n % 10 = n := by omega
      calc (a * 10 ^ (Nat.toDigitsCore 10 f (n / 10) []).length + n / 10) * 10 + n % 10
          = a * (10 ^ (Nat.toDigitsCore 10 f (n / 10) []).length * 10)
            + (n / 10 * 10 + n % 10) := by ring
        _ = a * (10 ^ (Nat.toDigitsCore 10 f (n / 10) []).length * 10) + n := by rw [hdm]
        _ = a * 10 ^ ((Nat.toDigitsCore 10 f (n / 10) []).length + 1) + n := by
            rw [pow_succ]
        _ = a * 10 ^ ((Nat.toDigitsCore 10 f (n / 10) []).length + (0 + 1)) + n := by
            rw [Nat.zero_add]

theorem decodeDigits_toDigits (n : Nat) :
    decodeDigits (Nat.toDigits 10 n) = n := by
  unfold decodeDigits Nat.toDigits
  have h := decode_foldl_toDigitsCore (n + 1) n 0 (Nat.lt_succ_self n)
  simpa using h

/-- Decoding a decimal `toString` of a natural number recovers the number. -/
theorem natId_toString (n : Nat) : natId (toString n) = n := by
  show decodeDigits (Nat.toDigits 10 n) = n
  exact decodeDigits_toDigits n

theorem toString_nat_inj {m n : Nat} (h : toString m = toString n) : m = n := by
  have h2 := congrArg natId h
  rwa [natId_toString, natId_toString] at h2

/-! ### Sequential-id layout lemmas -/

theorem seqIdsFrom_reorderFrom : ∀ (l : List ViewerData) (k : Nat),
    seqIdsFrom k (reorderFrom k l) := by
  intro l
  induction l with
  | nil => intro k; trivial
  | cons v rest ih => intro k; exact ⟨rfl, ih (k + 1)⟩

theorem reorderFrom_eq_self : ∀ (l : List ViewerData) (k : Nat),
    seqIdsFrom k l → reorderFrom k l = l := by
  intro l
  induction l with
  | nil => intro k _; rfl
  | cons v rest ih =>
    intro k h
    obtain ⟨h1, h2⟩ := h
    simp only [reorderFrom]
    rw [ih (k + 1) h2, ← h1]

theorem seqIdsFrom_get : ∀ (l : List ViewerData) (k : Nat), seqIdsFrom k l →
    ∀ (j : Nat) (hj : j < l.length), (l.get ⟨j, hj⟩).id = toString (k + j + 1) := by
  intro l
  induction l with
  | nil => intro k _ j hj; simp at hj
  | cons v rest ih =>
    intro k h j hj
    obtain ⟨h1, h2⟩ := h
    cases j with
    | zero => simpa using h1
    | succ j' =>
      have hj' : j' < rest.length := by simpa using hj
      have := ih (k + 1) h2 j' hj'
      have harith : k + 1 + j' + 1 = k + (j' + 1) + 1 := by omega
      rw [harith] at this
      simpa using this

theorem seqIdsFrom_nodup : ∀ (l : List ViewerData) (k : Nat),
    seqIdsFrom k l → (ids l).Nodup := by
  intro l
  induction l with
  | nil => intro k _; simp [ids]
  | cons v rest ih =>
    intro k h
    obtain ⟨h1, h2⟩ := h
    show (v.id :: ids rest).Nodup
    rw [List.nodup_cons]
    refine ⟨?_, ih (k + 1) h2⟩
    intro hc
    obtain ⟨u, hu, huid⟩ := List.mem_map.mp hc
    obtain ⟨⟨j, hj⟩, hju⟩ := List.mem_iff_get.mp hu
    have hgid := seqIdsFrom_get rest (k + 1) h2 j hj
    rw [hju] at hgid
    rw [hgid, h1] at huid
    have := toString_nat_inj huid
    omega

theorem isSeq_nodup {l : List ViewerData} (h : isSeq l) : (ids l).Nodup :=
  seqIdsFrom_nodup l 0 h

theorem seqIdsFrom_append_one : ∀ (l : List ViewerData) (k : Nat) (w : ViewerData),
    seqIdsFrom k l → w.id = toString (k + l.length + 1) → seqIdsFrom k (l ++ [w]) := by
  intro l
  induction l with
  | nil =>
    intro k w _ hw
    exact ⟨by simpa using hw, trivial⟩
  | cons v rest ih =>
    intro k w h hw
    obtain ⟨h1, h2⟩ := h
    refine ⟨h1, ih (k + 1) w h2 ?_⟩
    have harith : k + (v :: rest).length + 1 = k + 1 + rest.length + 1 := by
      simp only [List.length_cons]
      omega
    rw [harith] at hw
    exact hw

theorem isSeq_addViewer {l : List ViewerData} (h : isSeq l) : isSeq (addViewer l) := by
  refine seqIdsFrom_append_one l 0 _ h ?_
  show toString (l.length + 1) = toString (0 + l.length + 1)
  rw [Nat.zero_add]

theorem isSeq_reorderViewerIds (l : List ViewerData) : isSeq (reorderViewerIds l) :=
  seqIdsFrom_reorderFrom l 0

theorem isSeq_removeViewer (l : List ViewerData) (id : String) :
    isSeq (removeViewer l id) :=
  isSeq_reorderViewerIds _

theorem isSeq_rehydrateViewers (saved : List ViewerData) :
    isSeq (rehydrateViewers saved) :=
  isSeq_reorderViewerIds saved

theorem isSeq_initialViewers : isSeq initialViewers :=
  ⟨rfl, trivial⟩

/-- `removeViewer` with an id held by no pane is the identity on sequential
collections. -/
theorem removeViewer_absent {l : List ViewerData} {id : String} (hseq : isSeq l)
    (h : ∀ w ∈ l, w.id ≠ id) : removeViewer l id = l := by
  unfold removeViewer
  have hfil : l.filter (fun v => v.id != id) = l := by
    rw [List.filter_eq_self]
    intro w hw
    simpa using h w hw
  rw [hfil]
  exact reorderFrom_eq_self l 0 hseq

/-! ### Ids are never changed by the zoom and sync operations -/

theorem ids_set_preserve {l : List ViewerData} {j : Nat} (hj : j < l.length)
    {w : ViewerData} (hw : w.id = (l.get ⟨j, hj⟩).id) :
    ids (l.set j w) = ids l := by
  unfold ids
  rw [List.map_set]
  have hcast : j < (List.map (fun v => v.id) l).length := by simpa using hj
  have hval : w.id = (List.map (fun v => v.id) l).get ⟨j, hcast⟩ := by
    simp [hw]
  rw [hval, set_get_self]

theorem ids_applyToTargets : ∀ (ts base : List ViewerData) (v : ℚ),
    ids (applyToTargets base ts v) = ids base := by
  intro ts
  induction ts with
  | nil => intro base v; rfl
  | cons sv rest ih =>
    intro base v
    cases hfi : findIndex (fun w => w.id == sv.id) base with
    | none => rw [applyToTargets_cons_none hfi]; exact ih base v
    | some i =>
      rw [applyToTargets_cons_some hfi, ih]
      have hi := findIndex_lt_length hfi
      have hidi : (base.get ⟨i, hi⟩).id = sv.id := by
        have hg := findIndex_get hfi
        simpa using hg
      exact ids_set_preserve hi (by simpa using hidi.symm)

theorem ids_updateViewerZoom (l : List ViewerData) (id : String) (v : ℚ) (e : Bool) :
    ids (updateViewerZoom l id v e) = ids l := by
  cases e with
  | true => rw [updateViewerZoom_echo]; exact ids_setZoomOnId l id v
  | false =>
    cases hf : (setZoomOnId l id v).find? (fun u => u.id == id) with
    | none => rw [updateViewerZoom_find_none hf]; exact ids_setZoomOnId l id v
    | some tv =>
      cases hs : tv.syncZoom with
      | false =>
        rw [updateViewerZoom_find_nosync hf hs]
        exact ids_setZoomOnId l id v
      | true =>
        rw [updateViewerZoom_find_sync hf hs, ids_applyToTargets]
        exact ids_setZoomOnId l id v

theorem ids_updateViewerSync (l : List ViewerData) (id : String) (b : Bool) :
    ids (updateViewerSync l id b) = ids l := by
  cases b with
  | false => rw [updateViewerSync_disable]; exact ids_flagMap l id false
  | true =>
    cases hos : otherSyncViewers
        (l.map fun v => if v.id = id then { v with syncZoom := true } else v) id with
    | nil =>
      have heq : updateViewerSync l id true =
          l.map fun v => if v.id = id then { v with syncZoom := true } else v := by
        simp only [updateViewerSync, if_true, hos]
      rw [heq]
      exact ids_flagMap l id true
    | cons first rest' =>
      cases hfj : findIndex (fun v => v.id == id)
          (l.map fun v => if v.id = id then { v with syncZoom := true } else v) with
      | none =>
        have heq : updateViewerSync l id true =
            l.map fun v => if v.id = id then { v with syncZoom := true } else v := by
          simp only [updateViewerSync, if_true, hos, hfj]
        rw [heq]
        exact ids_flagMap l id true
      | some j =>
        have hj := findIndex_lt_length hfj
        obtain ⟨cur, hcurdef⟩ : ∃ cur, (l.map fun v =>
            if v.id = id then { v with syncZoom := true } else v).get ⟨j, hj⟩ = cur :=
          ⟨_, rfl⟩
        have hcurdef2 := hcurdef
        simp only [List.get_eq_getElem] at hcurdef2
        have heq : updateViewerSync l id true =
            (l.map fun v => if v.id = id then { v with syncZoom := true } else v).set j
              { cur with zoomLevel := first.zoomLevel } := by
          simp only [updateViewerSync, if_true, hos, hfj, List.getElem?_eq_getElem hj]
          rw [hcurdef2]
        rw [heq, ids_set_preserve hj (by rw [hcurdef])]
        exact ids_flagMap l id true

/-! ### Range bounds for every write path -/

theorem clampZoom_range (x : ℚ) : 1 / 100 ≤ clampZoom x ∧ clampZoom x ≤ 10 := by
  unfold clampZoom
  constructor
  · exact le_max_left _ _
  · exact max_le (by norm_num) (min_le_left _ _)

theorem setZoomOnId_range {l : List ViewerData} {id : String} {v : ℚ}
    (hv : 1 / 100 ≤ v ∧ v ≤ 10) (hl : ∀ w ∈ l, zoomInRange w) :
    ∀ w ∈ setZoomOnId l id v, zoomInRange w := by
  intro w hw
  obtain ⟨u, hu, rfl⟩ := List.mem_map.mp hw
  by_cases h : u.id = id
  · simp only [h, if_true]
    exact hv
  · simp only [h, if_false]
    exact hl u hu

theorem mem_applyToTargets {v : ℚ} :
    ∀ {ts base : List ViewerData} {w : ViewerData},
      w ∈ applyToTargets base ts v →
      w ∈ base ∨ ∃ sv ∈ ts, w = { sv with zoomLevel := v } := by
  intro ts
  induction ts with
  | nil => intro base w hw; exact Or.inl hw
  | cons sv rest ih =>
    intro base w hw
    cases hfi : findIndex (fun x => x.id == sv.id) base with
    | none =>
      rw [applyToTargets_cons_none hfi] at hw
      rcases ih hw with h | ⟨u, hu, rfl⟩
      · exact Or.inl h
      · exact Or.inr ⟨u, List.mem_cons_of_mem _ hu, rfl⟩
    | some i =>
      rw [applyToTargets_cons_some hfi] at hw
      rcases ih hw with h | ⟨u, hu, rfl⟩
      · rcases List.mem_or_eq_of_mem_set h with h2 | rfl
        · exact Or.inl h2
        · exact Or.inr ⟨sv, List.mem_cons_self _ _, rfl⟩
      · exact Or.inr ⟨u, List.mem_cons_of_mem _ hu, rfl⟩

theorem applyToTargets_range {base ts : List ViewerData} {v : ℚ}
    (hv : 1 / 100 ≤ v ∧ v ≤ 10) (hbase : ∀ w ∈ base, zoomInRange w) :
    ∀ w ∈ applyToTargets base ts v, zoomInRange w := by
  intro w hw
  rcases mem_applyToTargets hw with h | ⟨sv, _, rfl⟩
  · exact hbase w h
  · exact hv

theorem updateViewerZoom_range {l : List ViewerData} {id : String} {v : ℚ} {e : Bool}
    (hv : 1 / 100 ≤ v ∧ v ≤ 10) (hl : ∀ w ∈ l, zoomInRange w) :
    ∀ w ∈ updateViewerZoom l id v e, zoomInRange w := by
  cases e with
  | true =>
    rw [updateViewerZoom_echo]
    exact setZoomOnId_range hv hl
  | false =>
    cases hf : (setZoomOnId l id v).find? (fun u => u.id == id) with
    | none =>
      rw [updateViewerZoom_find_none hf]
      exact setZoomOnId_range hv hl
    | some tv =>
      cases hs : tv.syncZoom with
      | false =>
        rw [updateViewerZoom_find_nosync hf hs]
        exact setZoomOnId_range hv hl
      | true =>
        rw [updateViewerZoom_find_sync hf hs]
        exact applyToTargets_range hv (setZoomOnId_range hv hl)

theorem reportZoom_range {l : List ViewerData} (id : String) (x : ℚ) (e : Bool)
    (hl : ∀ w ∈ l, zoomInRange w) : ∀ w ∈ reportZoom l id x e, zoomInRange w :=
  updateViewerZoom_range (clampZoom_range x) hl

theorem flagMap_range {l : List ViewerData} {id : String} {b : Bool}
    (hl : ∀ w ∈ l, zoomInRange w) :
    ∀ w ∈ l.map (fun v => if v.id = id then { v with syncZoom := b } else v),
      zoomInRange w := by
  intro w hw
  obtain ⟨u, hu, rfl⟩ := List.mem_map.mp hw
  by_cases h : u.id = id
  · simp only [h, if_true]
    exact hl u hu
  · simp only [h, if_false]
    exact hl u hu

theorem updateViewerSync_range {l : List ViewerData} {id : String} {b : Bool}
    (hl : ∀ w ∈ l, zoomInRange w) :
    ∀ w ∈ updateViewerSync l id b, zoomInRange w := by
  cases b with
  | false =>
    rw [updateViewerSync_disable]
    exact flagMap_range hl
  | true =>
    cases hos : otherSyncViewers
        (l.map fun v => if v.id = id then { v with syncZoom := true } else v) id with
    | nil =>
      have heq : updateViewerSync l id true =
          l.map fun v => if v.id = id then { v with syncZoom := true } else v := by
        simp only [updateViewerSync, if_true, hos]
      rw [heq]
      exact flagMap_range hl
    | cons first rest' =>
      have hfirstmem : first ∈
          l.map fun v => if v.id = id then { v with syncZoom := true } else v := by
        have : first ∈ otherSyncViewers
            (l.map fun v => if v.id = id then { v with syncZoom := true } else v) id := by
          rw [hos]
          exact List.mem_cons_self _ _
        exact (List.mem_filter.mp this).1
      have hfr : zoomInRange first := flagMap_range hl first hfirstmem
      cases hfj : findIndex (fun v => v.id == id)
          (l.map fun v => if v.id = id then { v with syncZoom := true } else v) with
      | none =>
        have heq : updateViewerSync l id true =
            l.map fun v => if v.id = id then { v with syncZoom := true } else v := by
          simp only [updateViewerSync, if_true, hos, hfj]
        rw [heq]
        exact flagMap_range hl
      | some j =>
        have hj := findIndex_lt_length hfj
        obtain ⟨cur, hcurdef⟩ : ∃ cur, (l.map fun v =>
            if v.id = id then { v with syncZoom := true } else v).get ⟨j, hj⟩ = cur :=
          ⟨_, rfl⟩
        have hcurdef2 := hcurdef
        simp only [List.get_eq_getElem] at hcurdef2
        have heq : updateViewerSync l id true =
            (l.map fun v => if v.id = id then { v with syncZoom := true } else v).set j
              { cur with zoomLevel := first.zoomLevel } := by
          simp only [updateViewerSync, if_true, hos, hfj, List.getElem?_eq_getElem hj]
          rw [hcurdef2]
        rw [heq]
        intro w hw
        rcases List.mem_or_eq_of_mem_set hw with h | rfl
        · exact flagMap_range hl w h
        · exact hfr

theorem addViewer_range {l : List ViewerData} (hl : ∀ w ∈ l, zoomInRange w) :
    ∀ w ∈ addViewer l, zoomInRange w := by
  intro w hw
  rcases List.mem_append.mp hw with h | h
  · exact hl w h
  · have : w = { id := toString (l.length + 1), zoomLevel := 1, syncZoom := false } := by
      simpa using h
    rw [this]
    constructor <;> norm_num

/-! ### Display-apply lemmas and idempotence -/

/-- With duplicate-free ids, `find?` on a pane id returns that very pane. -/
theorem find?_id_of_nodup {l : List ViewerData} (hnd : (ids l).Nodup)
    {w : ViewerData} (hw : w ∈ l) :
    l.find? (fun u => u.id == w.id) = some w := by
  cases hf : l.find? (fun u => u.id == w.id) with
  | none =>
    exfalso
    rw [List.find?_eq_none] at hf
    exact hf w hw (by simp)
  | some u =>
    have hup := List.find?_some hf
    have huid : u.id = w.id := by simpa using hup
    have humem := List.mem_of_find?_eq_some hf
    rw [uniqueId_of_nodup hnd humem hw huid]

/-- A pane id belongs to the display-apply targets iff the collection contains
a pane with that id whose state zoom moved by more than the tolerance relative
to the old collection's pane found under the same id. -/
theorem mem_displayApplyTargets {old new : List ViewerData} {x : String} :
    x ∈ displayApplyTargets old new ↔
      ∃ v ∈ new, v.id = x ∧ ∃ u, old.find? (fun u => u.id == v.id) = some u ∧
        1 / 100 < |v.zoomLevel - u.zoomLevel| := by
  unfold displayApplyTargets
  rw [List.mem_filterMap]
  constructor
  · rintro ⟨v, hv, hfv⟩
    cases hf : old.find? (fun u => u.id == v.id) with
    | none =>
      simp only [hf] at hfv
      exact absurd hfv (by simp)
    | some u =>
      simp only [hf] at hfv
      by_cases hd : 1 / 100 < |v.zoomLevel - u.zoomLevel|
      · rw [if_pos hd] at hfv
        exact ⟨v, hv, Option.some.inj hfv, u, hf, hd⟩
      · rw [if_neg hd] at hfv
        simp at hfv
  · rintro ⟨v, hv, rfl, u, hf, hd⟩
    refine ⟨v, hv, ?_⟩
    simp only [hf]
    rw [if_pos hd]

/-- No pane of a duplicate-free collection is a display-apply target of itself. -/
theorem displayApplyTargets_self {l : List ViewerData} (hnd : (ids l).Nodup) :
    displayApplyTargets l l = [] := by
  unfold displayApplyTargets
  rw [List.filterMap_eq_nil_iff]
  intro v hv
  rw [find?_id_of_nodup hnd hv]
  simp

/-- Repeating the same propagating zoom write is a no-op on the state. -/
theorem updateViewerZoom_idem {l : List ViewerData} {id : String} {v : ℚ}
    (hnd : (ids l).Nodup) {orig : ViewerData}
    (horig : orig ∈ l) (hid : orig.id = id) (hsync : orig.syncZoom = true) :
    updateViewerZoom (updateViewerZoom l id v false) id v false =
      updateViewerZoom l id v false := by
  have hchar := updateViewerZoom_char (v := v) hnd horig hid hsync
  have hnd1 : (ids (updateViewerZoom l id v false)).Nodup := by
    rw [ids_updateViewerZoom]; exact hnd
  have horig1 : { orig with zoomLevel := v } ∈ updateViewerZoom l id v false := by
    rw [hchar]
    have := List.mem_map_of_mem
      (fun w => if w.id = id ∨ w.syncZoom = true then { w with zoomLevel := v } else w) horig
    simpa [Or.inl hid] using this
  have hchar1 := updateViewerZoom_char (v := v) hnd1 horig1 (show orig.id = id from hid) hsync
  rw [hchar1, hchar, List.map_map]
  apply List.map_congr_left
  intro w _
  simp only [Function.comp_apply]
  by_cases hc : w.id = id ∨ w.syncZoom = true
  · rw [if_pos hc]
    have hc2 : ViewerData.id { w with zoomLevel := v } = id ∨
        ViewerData.syncZoom { w with zoomLevel := v } = true := hc
    rw [if_pos hc2]
  · rw [if_neg hc, if_neg hc]

/-! ### First element of a filter is at the least satisfying position -/

theorem filter_head_min {p : ViewerData → Bool} :
    ∀ {l : List ViewerData} {first : ViewerData} {rest : List ViewerData},
      l.filter p = first :: rest →
      ∃ k, ∃ hk : k < l.length, l.get ⟨k, hk⟩ = first ∧
        ∀ (j : Nat) (hj : j < l.length), p (l.get ⟨j, hj⟩) = true → k ≤ j := by
  intro l
  induction l with
  | nil => intro first rest h; simp at h
  | cons a xs ih =>
    intro first rest h
    by_cases hpa : p a = true
    · rw [List.filter_cons_of_pos hpa] at h
      have ha : a = first := (List.cons.inj h).1
      refine ⟨0, by simp, by simpa using ha, fun j hj _ => Nat.zero_le j⟩
    · rw [List.filter_cons_of_neg (by simpa using hpa)] at h
      obtain ⟨k, hk, hget, hmin⟩ := ih h
      refine ⟨k + 1, by simpa using hk, by simpa using hget, ?_⟩
      intro j hj hpj
      cases j with
      | zero => exact absurd (by simpa using hpj) hpa
      | succ j' =>
        have hj' : j' < xs.length := by simpa using hj
        have := hmin j' hj' (by simpa using hpj)
        omega

/-! ### Remaining supporting lemmas -/

theorem mem_updateViewerZoom {l : List ViewerData} {id : String} {v : ℚ} {e : Bool}
    {w : ViewerData} (hw : w ∈ updateViewerZoom l id v e) :
    w ∈ setZoomOnId l id v ∨
      ∃ sv ∈ otherSyncViewers (setZoomOnId l id v) id, w = { sv with zoomLevel := v } := by
  cases e with
  | true =>
    rw [updateViewerZoom_echo] at hw
    exact Or.inl hw
  | false =>
    cases hf : (setZoomOnId l id v).find? (fun u => u.id == id) with
    | none =>
      rw [updateViewerZoom_find_none hf] at hw
      exact Or.inl hw
    | some tv =>
      cases hs : tv.syncZoom with
      | false =>
        rw [updateViewerZoom_find_nosync hf hs] at hw
        exact Or.inl hw
      | true =>
        rw [updateViewerZoom_find_sync hf hs] at hw
        exact mem_applyToTargets hw

/-- Whatever the echo flag, every pane carrying the originating id ends the
call with the written zoom level. -/
theorem updateViewerZoom_origin_zoom {l : List ViewerData} {id : String} {v : ℚ}
    (e : Bool) : ∀ w ∈ updateViewerZoom l id v e, w.id = id → w.zoomLevel = v := by
  intro w hw hwid
  rcases mem_updateViewerZoom hw with h | ⟨sv, hsv, rfl⟩
  · obtain ⟨u, hu, rfl⟩ := List.mem_map.mp h
    by_cases hc : u.id = id
    · rw [if_pos hc]
    · rw [if_neg hc] at hwid
      exact absurd hwid hc
  · exfalso
    have hp := (List.mem_filter.mp hsv).2
    have : sv.id ≠ id := by
      intro hx
      simp [hx] at hp
    exact this hwid

theorem reorderFrom_proj : ∀ (l : List ViewerData) (k : Nat),
    (reorderFrom k l).map (fun w => (w.zoomLevel, w.syncZoom)) =
      l.map (fun w => (w.zoomLevel, w.syncZoom)) := by
  intro l
  induction l with
  | nil => intro k; rfl
  | cons v rest ih =>
    intro k
    simp only [reorderFrom, List.map_cons]
    rw [ih (k + 1)]

/-! ### Claim theorems -/

/-- **C1**: for every pane collection with duplicate-free ids and every call
`reportZoom(id, newFactor, isEcho = false)` with an accepted (in-range) factor,
where the pane with that id exists and has `syncEnabled = true`, after the call
every pane with `syncEnabled = true` — the originator included — has
`zoomFactor` equal to `newFactor`. -/
theorem C1_reportZoom_convergence {l : List ViewerData} {id : String}
    {newFactor : ℚ} (hnd : (ids l).Nodup)
    (horig : ∃ w ∈ l, w.id = id ∧ w.syncZoom = true)
    (hrange : 1 / 100 ≤ newFactor ∧ newFactor ≤ 10) :
    ∀ w ∈ reportZoom l id newFactor false,
      w.syncZoom = true → w.zoomLevel = newFactor := by
  obtain ⟨orig, hmem, hid, hsync⟩ := horig
  have hclamp : clampZoom newFactor = newFactor := by
    unfold clampZoom
    rw [min_eq_right hrange.2, max_eq_right hrange.1]
  unfold reportZoom
  rw [hclamp, updateViewerZoom_char hnd hmem hid hsync]
  intro w hw hs
  obtain ⟨u, hu, rfl⟩ := List.mem_map.mp hw
  by_cases hc : u.id = id ∨ u.syncZoom = true
  · rw [if_pos hc]
  · rw [if_neg hc] at hs
    exact absurd (Or.inr hs) hc

theorem C1_witness :
    ((ids [⟨"1", 2, true⟩, ⟨"2", 1, true⟩, ⟨"3", 5, false⟩]).Nodup ∧
      (∃ w ∈ [(⟨"1", 2, true⟩ : ViewerData), ⟨"2", 1, true⟩, ⟨"3", 5, false⟩],
        w.id = "1" ∧ w.syncZoom = true) ∧
      ((1 : ℚ) / 100 ≤ 3 ∧ (3 : ℚ) ≤ 10)) ∧
    (∀ w ∈ reportZoom [⟨"1", 2, true⟩, ⟨"2", 1, true⟩, ⟨"3", 5, false⟩] "1" 3 false,
      w.syncZoom = true → w.zoomLevel = 3) :=
  ⟨⟨by decide, by decide, by norm_num⟩,
    C1_reportZoom_convergence (by decide) (by decide) (by norm_num)⟩

/-- **C2**: starting from panes whose zoom levels are inside `[0.01, 10]`,
every write path — `reportZoom` with any factor, `setSync`, `resetZoom`,
`addPane` — leaves every pane's `zoomFactor` inside `[0.01, 10]`; moreover
reporting factor `50` leaves the originating pane at exactly `10`, and
reporting factor `0.0001` leaves it at exactly `0.01`. -/
theorem C2_clamp_range {l : List ViewerData} (hl : ∀ w ∈ l, zoomInRange w)
    (id : String) (x : ℚ) (e b : Bool) :
    (∀ w ∈ reportZoom l id x e, zoomInRange w) ∧
    (∀ w ∈ updateViewerSync l id b, zoomInRange w) ∧
    (∀ w ∈ resetZoom l id, zoomInRange w) ∧
    (∀ w ∈ addViewer l, zoomInRange w) ∧
    (∀ w ∈ reportZoom l id 50 false, w.id = id → w.zoomLevel = 10) ∧
    (∀ w ∈ reportZoom l id (1 / 10000) false, w.id = id → w.zoomLevel = 1 / 100) := by
  have h50 : clampZoom 50 = 10 := by norm_num [clampZoom]
  have h4 : clampZoom (1 / 10000) = 1 / 100 := by
    unfold clampZoom
    rw [min_eq_right (by norm_num), max_eq_left (by norm_num)]
  refine ⟨reportZoom_range id x e hl, updateViewerSync_range hl, ?_, addViewer_range hl,
    ?_, ?_⟩
  · exact updateViewerZoom_range (by norm_num) hl
  · intro w hw hwid
    unfold reportZoom at hw
    rw [h50] at hw
    exact updateViewerZoom_origin_zoom false w hw hwid
  · intro w hw hwid
    unfold reportZoom at hw
    rw [h4] at hw
    exact updateViewerZoom_origin_zoom false w hw hwid

theorem C2_witness :
    (∀ w ∈ [(⟨"1", 1, true⟩ : ViewerData), ⟨"2", 2, false⟩], zoomInRange w) ∧
    ((∀ w ∈ reportZoom [⟨"1", 1, true⟩, ⟨"2", 2, false⟩] "1" 37 false, zoomInRange w) ∧
     (∀ w ∈ updateViewerSync [⟨"1", 1, true⟩, ⟨"2", 2, false⟩] "1" true, zoomInRange w) ∧
     (∀ w ∈ resetZoom [⟨"1", 1, true⟩, ⟨"2", 2, false⟩] "1", zoomInRange w) ∧
     (∀ w ∈ addViewer [⟨"1", 1, true⟩, ⟨"2", 2, false⟩], zoomInRange w) ∧
     (∀ w ∈ reportZoom [⟨"1", 1, true⟩, ⟨"2", 2, false⟩] "1" 50 false,
        w.id = "1" → w.zoomLevel = 10) ∧
     (∀ w ∈ reportZoom [⟨"1", 1, true⟩, ⟨"2", 2, false⟩] "1" (1 / 10000) false,
        w.id = "1" → w.zoomLevel = 1 / 100)) :=
  ⟨by intro w hw; fin_cases hw <;> exact ⟨by norm_num, by norm_num⟩,
    C2_clamp_range (by intro w hw; fin_cases hw <;> exact ⟨by norm_num, by norm_num⟩)
      "1" 37 false true⟩

/-- **C3**: no propagation update (apply command) of a zoom report ever targets
the originating pane itself: the originator's id never occurs among the emitted
command targets, and the propagation set excludes it by construction. -/
theorem C3_no_self_apply (l : List ViewerData) (id : String) (v : ℚ) (e : Bool) :
    id ∉ zoomCommands l id v e ∧ id ∉ reportZoomCommands l id v e ∧
    ∀ w ∈ otherSyncViewers l id, w.id ≠ id := by
  have key : ∀ (v' : ℚ), id ∉ zoomCommands l id v' e := by
    intro v'
    unfold zoomCommands
    cases e with
    | true => simp
    | false =>
      cases hf : (setZoomOnId l id v').find? (fun u => u.id == id) with
      | none => simp [hf]
      | some tv =>
        cases hs : tv.syncZoom with
        | false => simp [hf, hs]
        | true =>
          simp only [hf, hs, Bool.false_eq_true, if_false, if_true]
          exact not_mem_otherSyncViewers_ids _ _
  refine ⟨key v, key (clampZoom v), ?_⟩
  intro w hw
  have hp := (List.mem_filter.mp hw).2
  intro hx
  simp [hx] at hp

/-- **C4**: an echo-flagged zoom report, or a report from an unsynced pane,
updates only the originating pane's `zoomFactor`: every other pane keeps both
fields unchanged, and zero apply commands are produced. -/
theorem C4_echo_unsynced_frame {l : List ViewerData} {id : String} {v : ℚ}
    {e : Bool} (h : e = true ∨ ∀ w ∈ l, w.id = id → w.syncZoom = false) :
    updateViewerZoom l id v e =
      l.map (fun w => if w.id = id then { w with zoomLevel := v } else w) ∧
    zoomCommands l id v e = [] := by
  rcases h with rfl | hun
  · exact ⟨updateViewerZoom_echo l id v, zoomCommands_echo l id v⟩
  · cases e with
    | true => exact ⟨updateViewerZoom_echo l id v, zoomCommands_echo l id v⟩
    | false => exact ⟨updateViewerZoom_unsynced hun, zoomCommands_unsynced hun⟩

theorem C4_witness :
    (false = true ∨ ∀ w ∈ [(⟨"1", 2, false⟩ : ViewerData), ⟨"2", 3, true⟩],
      w.id = "1" → w.syncZoom = false) ∧
    updateViewerZoom [⟨"1", 2, false⟩, ⟨"2", 3, true⟩] "1" 5 false =
      [⟨"1", 5, false⟩, ⟨"2", 3, true⟩] ∧
    zoomCommands [⟨"1", 2, false⟩, ⟨"2", 3, true⟩] "1" 5 false = [] := by
  have hun : (false = true ∨ ∀ w ∈ [(⟨"1", 2, false⟩ : ViewerData), ⟨"2", 3, true⟩],
      w.id = "1" → w.syncZoom = false) := Or.inr (by decide)
  have h := C4_echo_unsynced_frame (v := 5) hun
  exact ⟨hun, by rw [h.1]; decide, h.2⟩

/-- **C5**: enabling sync on an existing pane of a sequentially-numbered
collection while at least one other pane is synced makes the target adopt the
zoom level of the lowest-numbered other synced pane (the head `first` of the
propagation set), emits exactly one apply command targeting the joining pane,
and leaves every other pane's `zoomFactor` and `syncEnabled` unchanged. -/
theorem C5_join_adopts_group {l : List ViewerData} {id : String}
    (hseq : isSeq l) (horig : ∃ w ∈ l, w.id = id)
    {first : ViewerData} {rest' : List ViewerData}
    (hos : otherSyncViewers l id = first :: rest') :
    first ∈ l ∧ first.id ≠ id ∧ first.syncZoom = true ∧
    (∀ u ∈ l, u.id ≠ id → u.syncZoom = true → natId first.id ≤ natId u.id) ∧
    updateViewerSync l id true =
      l.map (fun w => if w.id = id
        then { w with zoomLevel := first.zoomLevel, syncZoom := true } else w) ∧
    syncCommands l id true = [id] := by
  obtain ⟨orig, hmem, hid⟩ := horig
  have hnd := isSeq_nodup hseq
  have hfos : first ∈ otherSyncViewers l id := by
    rw [hos]
    exact List.mem_cons_self _ _
  have hfl : first ∈ l := (List.mem_filter.mp hfos).1
  have hfp := (List.mem_filter.mp hfos).2
  rw [Bool.and_eq_true] at hfp
  have hfid : first.id ≠ id := by
    intro hx
    rw [hx] at hfp
    simp at hfp
  have hfsync : first.syncZoom = true := hfp.2
  obtain ⟨k, hk, hgetk, hmin⟩ :=
    filter_head_min (show l.filter _ = first :: rest' from hos)
  have hfirstid : first.id = toString (0 + k + 1) := by
    rw [← hgetk]
    exact seqIdsFrom_get l 0 hseq k hk
  refine ⟨hfl, hfid, hfsync, ?_, updateViewerSync_char hnd hmem hid hos,
    syncCommands_char hmem hid hos⟩
  intro u hu huid husync
  obtain ⟨⟨j, hj⟩, hju⟩ := List.mem_iff_get.mp hu
  have hpu : ((l.get ⟨j, hj⟩).id != id && (l.get ⟨j, hj⟩).syncZoom) = true := by
    rw [hju]
    simp [huid, husync]
  have hkj := hmin j hj hpu
  have huid2 : u.id = toString (0 + j + 1) := by
    rw [← hju]
    exact seqIdsFrom_get l 0 hseq j hj
  rw [hfirstid, huid2, natId_toString, natId_toString]
  omega

theorem C5_witness :
    (isSeq [(⟨"1", 2, true⟩ : ViewerData), ⟨"2", 1, false⟩] ∧
      (∃ w ∈ [(⟨"1", 2, true⟩ : ViewerData), ⟨"2", 1, false⟩], w.id = "2") ∧
      otherSyncViewers [⟨"1", 2, true⟩, ⟨"2", 1, false⟩] "2" = [⟨"1", 2, true⟩]) ∧
    (⟨"1", 2, true⟩ : ViewerData) ∈ [(⟨"1", 2, true⟩ : ViewerData), ⟨"2", 1, false⟩] ∧
    (∀ u ∈ [(⟨"1", 2, true⟩ : ViewerData), ⟨"2", 1, false⟩], u.id ≠ "2" →
      u.syncZoom = true → natId (⟨"1", 2, true⟩ : ViewerData).id ≤ natId u.id) ∧
    updateViewerSync [⟨"1", 2, true⟩, ⟨"2", 1, false⟩] "2" true =
      [⟨"1", 2, true⟩, ⟨"2", 2, true⟩] ∧
    syncCommands [⟨"1", 2, true⟩, ⟨"2", 1, false⟩] "2" true = ["2"] := by
  have hseq : isSeq [(⟨"1", 2, true⟩ : ViewerData), ⟨"2", 1, false⟩] := ⟨rfl, rfl, trivial⟩
  have hex : ∃ w ∈ [(⟨"1", 2, true⟩ : ViewerData), ⟨"2", 1, false⟩], w.id = "2" := by
    decide
  have hos : otherSyncViewers [(⟨"1", 2, true⟩ : ViewerData), ⟨"2", 1, false⟩] "2" =
      ⟨"1", 2, true⟩ :: [] := by decide
  have h := C5_join_adopts_group hseq hex hos
  refine ⟨⟨hseq, by decide, by decide⟩, h.1, ?_, by rw [h.2.2.2.2.1]; decide, h.2.2.2.2.2⟩
  exact h.2.2.2.1

/-- **C6**: toggling sync off, or toggling sync on when no other pane is
synced, writes only the target pane's `syncEnabled` flag: no pane's
`zoomFactor` changes and no apply command is issued. -/
theorem C6_sync_toggle_no_zoom_change {l : List ViewerData} {id : String} {b : Bool}
    (h : b = false ∨ ∀ w ∈ l, w.id ≠ id → w.syncZoom = false) :
    updateViewerSync l id b =
      l.map (fun w => if w.id = id then { w with syncZoom := b } else w) ∧
    syncCommands l id b = [] := by
  rcases h with rfl | hno
  · exact ⟨updateViewerSync_disable l id, syncCommands_disable l id⟩
  · cases b with
    | false => exact ⟨updateViewerSync_disable l id, syncCommands_disable l id⟩
    | true => exact ⟨updateViewerSync_enable_alone hno, syncCommands_enable_alone hno⟩

theorem C6_witness :
    (true = false ∨ ∀ w ∈ [(⟨"1", 3, false⟩ : ViewerData), ⟨"2", 4, false⟩],
      w.id ≠ "1" → w.syncZoom = false) ∧
    updateViewerSync [⟨"1", 3, false⟩, ⟨"2", 4, false⟩] "1" true =
      [⟨"1", 3, true⟩, ⟨"2", 4, false⟩] ∧
    syncCommands [⟨"1", 3, false⟩, ⟨"2", 4, false⟩] "1" true = [] := by
  have hno : (true = false ∨ ∀ w ∈ [(⟨"1", 3, false⟩ : ViewerData), ⟨"2", 4, false⟩],
      w.id ≠ "1" → w.syncZoom = false) := Or.inr (by decide)
  have h := C6_sync_toggle_no_zoom_change hno
  exact ⟨hno, by rw [h.1]; decide, h.2⟩

/-- **C7**: on a sequentially-numbered collection, removing an id held by no
pane leaves the collection unchanged (silent no-op, no error is possible since
the operation is a total function); removing an existing pane deletes exactly
the panes carrying that id while every survivor keeps its `zoomFactor` and
`syncEnabled` values, in order. -/
theorem C7_removePane {l : List ViewerData} {id : String} (hseq : isSeq l) :
    ((∀ w ∈ l, w.id ≠ id) → removeViewer l id = l) ∧
    (removeViewer l id).map (fun w => (w.zoomLevel, w.syncZoom)) =
      (l.filter (fun w => w.id != id)).map (fun w => (w.zoomLevel, w.syncZoom)) := by
  refine ⟨fun h => removeViewer_absent hseq h, ?_⟩
  unfold removeViewer reorderViewerIds
  exact reorderFrom_proj _ 0

theorem C7_witness :
    isSeq [(⟨"1", 2, true⟩ : ViewerData), ⟨"2", 3, false⟩] ∧
    ((∀ w ∈ [(⟨"1", 2, true⟩ : ViewerData), ⟨"2", 3, false⟩], w.id ≠ "2") →
      removeViewer [⟨"1", 2, true⟩, ⟨"2", 3, false⟩] "2" =
        [⟨"1", 2, true⟩, ⟨"2", 3, false⟩]) ∧
    (removeViewer [⟨"1", 2, true⟩, ⟨"2", 3, false⟩] "2").map
        (fun w => (w.zoomLevel, w.syncZoom)) =
      ([(⟨"1", 2, true⟩ : ViewerData), ⟨"2", 3, false⟩].filter
        (fun w => w.id != "2")).map (fun w => (w.zoomLevel, w.syncZoom)) := by
  have hseq : isSeq [(⟨"1", 2, true⟩ : ViewerData), ⟨"2", 3, false⟩] := ⟨rfl, rfl, trivial⟩
  exact ⟨hseq, (C7_removePane hseq).1, (C7_removePane hseq).2⟩

/-- **C8** counterexample: removing pane `"1"` from the two panes `"1"` and
`"2"` renumbers the survivor — the pane that carried id `"2"` (zoom `2`,
synced) survives the operation but now carries id `"1" ≠ "2"`, so a pane's id
is not stable across `removePane`. -/
theorem C8_counterexample :
    removeViewer [⟨"1", 1, false⟩, ⟨"2", 2, true⟩] "1" = [⟨"1", 2, true⟩] ∧
    ("2" : String) ≠ "1" :=
  ⟨by decide, by decide⟩

/-- **C8 (amended)**: in sequentially-numbered states ids are unique, and
`addPane`, `reportZoom` and `setSync` never change any pane's id (`addPane`
only appends a fresh one); `removePane` however renumbers the survivors back
to `"1"`, …, `"n"`, so id stability holds for every operation except
`removePane`. -/
theorem C8_amended {l : List ViewerData} (hseq : isSeq l) (i : String) (v : ℚ)
    (e b : Bool) :
    (ids l).Nodup ∧
    ids (addViewer l) = ids l ++ [toString (l.length + 1)] ∧
    (ids (addViewer l)).Nodup ∧
    ids (updateViewerZoom l i v e) = ids l ∧
    ids (updateViewerSync l i b) = ids l ∧
    isSeq (removeViewer l i) := by
  refine ⟨isSeq_nodup hseq, ?_, isSeq_nodup (isSeq_addViewer hseq),
    ids_updateViewerZoom l i v e, ids_updateViewerSync l i b,
    isSeq_removeViewer l i⟩
  unfold ids addViewer
  rw [List.map_append]
  rfl

theorem C8_amended_witness :
    isSeq [(⟨"1", 1, true⟩ : ViewerData)] ∧
    ((ids [(⟨"1", 1, true⟩ : ViewerData)]).Nodup ∧
      ids (addViewer [(⟨"1", 1, true⟩ : ViewerData)]) =
        ids [(⟨"1", 1, true⟩ : ViewerData)] ++ [toString (1 + 1)] ∧
      (ids (addViewer [(⟨"1", 1, true⟩ : ViewerData)])).Nodup ∧
      ids (updateViewerZoom [(⟨"1", 1, true⟩ : ViewerData)] "1" 2 false) =
        ids [(⟨"1", 1, true⟩ : ViewerData)] ∧
      ids (updateViewerSync [(⟨"1", 1, true⟩ : ViewerData)] "1" true) =
        ids [(⟨"1", 1, true⟩ : ViewerData)] ∧
      isSeq (removeViewer [(⟨"1", 1, true⟩ : ViewerData)] "1")) := by
  have hseq : isSeq [(⟨"1", 1, true⟩ : ViewerData)] := ⟨rfl, trivial⟩
  exact ⟨hseq, C8_amended hseq "1" 2 false true⟩

/-- **C9** counterexample: with panes `"1"` (zoom `2`, synced) and `"2"`
(zoom `2.005`, synced), reporting zoom `2` from pane `"1"` rewrites pane
`"2"`'s `zoomFactor` to `2` and emits a propagation update for it, even though
pane `"2"` differed from the reported value by only `0.005 ≤ ε`: the
within-tolerance target is neither left untouched nor spared a command. -/
theorem C9_counterexample :
    |(401 / 200 : ℚ) - 2| ≤ 1 / 100 ∧ (401 / 200 : ℚ) ≠ 2 ∧
    updateViewerZoom [⟨"1", 2, true⟩, ⟨"2", 401 / 200, true⟩] "1" 2 false =
      [⟨"1", 2, true⟩, ⟨"2", 2, true⟩] ∧
    zoomCommands [⟨"1", 2, true⟩, ⟨"2", 401 / 200, true⟩] "1" 2 false = ["2"] := by
  refine ⟨?_, by norm_num, ?_, ?_⟩
  · rw [abs_le]
    constructor <;> norm_num
  · simp [updateViewerZoom, setZoomOnId, otherSyncViewers, applyToTargets, findIndex]
  · simp [zoomCommands, setZoomOnId, otherSyncViewers]

/-- **C9 (amended)**: a propagation target already within `ε = 0.01` of the
reported value still has its `zoomFactor` state set to the value — it is not
left untouched — but it receives no display write (the `Viewer` effect skips
differences of at most `ε`); and repeating the same report is a state no-op
which issues no display writes at all. -/
theorem C9_amended {l : List ViewerData} {i : String} {v : ℚ}
    (hnd : (ids l).Nodup) {orig : ViewerData}
    (horig : orig ∈ l) (hid : orig.id = i) (hsync : orig.syncZoom = true) :
    (∀ w ∈ l, w.id ≠ i → w.syncZoom = true → |w.zoomLevel - v| ≤ 1 / 100 →
      w.id ∉ displayApplyTargets l (updateViewerZoom l i v false)) ∧
    (∀ w ∈ updateViewerZoom l i v false, w.syncZoom = true → w.zoomLevel = v) ∧
    updateViewerZoom (updateViewerZoom l i v false) i v false =
      updateViewerZoom l i v false ∧
    displayApplyTargets (updateViewerZoom l i v false)
      (updateViewerZoom (updateViewerZoom l i v false) i v false) = [] := by
  have hchar := updateViewerZoom_char (v := v) hnd horig hid hsync
  refine ⟨?_, ?_, updateViewerZoom_idem hnd horig hid hsync, ?_⟩
  · intro w hw hwid hwsync hweps hcmem
    obtain ⟨vv, hvv, hvvid, u, hfu, hdiff⟩ := mem_displayApplyTargets.mp hcmem
    rw [hchar] at hvv
    obtain ⟨u', hu', rfl⟩ := List.mem_map.mp hvv
    have hgid : (if u'.id = i ∨ u'.syncZoom = true
        then { u' with zoomLevel := v } else u').id = u'.id := by
      by_cases hc : u'.id = i ∨ u'.syncZoom = true
      · rw [if_pos hc]
      · rw [if_neg hc]
    rw [hgid] at hvvid
    have huw : u' = w := uniqueId_of_nodup hnd hu' hw hvvid
    subst huw
    have hcond : u'.id = i ∨ u'.syncZoom = true := Or.inr hwsync
    rw [if_pos hcond] at hfu hdiff
    have hfw := find?_id_of_nodup hnd hu'
    have huu : u = u' := by
      have h2 : some u = some u' := hfu.symm.trans hfw
      exact Option.some.inj h2
    subst huu
    have hdiff2 : 1 / 100 < |v - u.zoomLevel| := hdiff
    rw [abs_sub_comm] at hdiff2
    exact absurd hdiff2 (not_lt.mpr hweps)
  · rw [hchar]
    intro w hw hs
    obtain ⟨u, hu, rfl⟩ := List.mem_map.mp hw
    by_cases hc : u.id = i ∨ u.syncZoom = true
    · rw [if_pos hc]
    · rw [if_neg hc] at hs
      exact absurd (Or.inr hs) hc
  · rw [updateViewerZoom_idem hnd horig hid hsync]
    refine displayApplyTargets_self ?_
    rw [ids_updateViewerZoom]
    exact hnd

theorem C9_amended_witness :
    ((ids [(⟨"1", 2, true⟩ : ViewerData), ⟨"2", 401 / 200, true⟩]).Nodup ∧
      (⟨"1", 2, true⟩ : ViewerData) ∈
        [(⟨"1", 2, true⟩ : ViewerData), ⟨"2", 401 / 200, true⟩] ∧
      (⟨"1", 2, true⟩ : ViewerData).id = "1" ∧
      (⟨"1", 2, true⟩ : ViewerData).syncZoom = true) ∧
    ((∀ w ∈ [(⟨"1", 2, true⟩ : ViewerData), ⟨"2", 401 / 200, true⟩],
        w.id ≠ "1" → w.syncZoom = true → |w.zoomLevel - 2| ≤ 1 / 100 →
        w.id ∉ displayApplyTargets [(⟨"1", 2, true⟩ : ViewerData), ⟨"2", 401 / 200, true⟩]
          (updateViewerZoom [(⟨"1", 2, true⟩ : ViewerData), ⟨"2", 401 / 200, true⟩]
            "1" 2 false)) ∧
      (∀ w ∈ updateViewerZoom [(⟨"1", 2, true⟩ : ViewerData), ⟨"2", 401 / 200, true⟩]
          "1" 2 false, w.syncZoom = true → w.zoomLevel = 2) ∧
      updateViewerZoom (updateViewerZoom
          [(⟨"1", 2, true⟩ : ViewerData), ⟨"2", 401 / 200, true⟩] "1" 2 false) "1" 2 false =
        updateViewerZoom [(⟨"1", 2, true⟩ : ViewerData), ⟨"2", 401 / 200, true⟩]
          "1" 2 false ∧
      displayApplyTargets
        (updateViewerZoom [(⟨"1", 2, true⟩ : ViewerData), ⟨"2", 401 / 200, true⟩]
          "1" 2 false)
        (updateViewerZoom (updateViewerZoom
          [(⟨"1", 2, true⟩ : ViewerData), ⟨"2", 401 / 200, true⟩] "1" 2 false)
          "1" 2 false) = []) := by
  have hnd : (ids [(⟨"1", 2, true⟩ : ViewerData), ⟨"2", 401 / 200, true⟩]).Nodup := by
    decide
  have hmem : (⟨"1", 2, true⟩ : ViewerData) ∈
      [(⟨"1", 2, true⟩ : ViewerData), ⟨"2", 401 / 200, true⟩] := List.mem_cons_self _ _
  exact ⟨⟨hnd, hmem, rfl, rfl⟩, C9_amended hnd hmem rfl rfl⟩

/-- **C10**: the initial collection, `addPane` on a sequential collection,
`removePane`, and rehydration from a persisted layout all leave the pane ids
exactly `"1"`, `"2"`, …, `"n"` in collection order. -/
theorem C10_sequential_ids {l : List ViewerData} (hseq : isSeq l)
    (i : String) (saved : List ViewerData) :
    isSeq initialViewers ∧ isSeq (addViewer l) ∧ isSeq (removeViewer l i) ∧
    isSeq (rehydrateViewers saved) ∧
    (∀ (m : List ViewerData), isSeq m →
      ∀ (j : Nat) (hj : j < m.length), (m.get ⟨j, hj⟩).id = toString (j + 1)) := by
  refine ⟨isSeq_initialViewers, isSeq_addViewer hseq, isSeq_removeViewer l i,
    isSeq_rehydrateViewers saved, ?_⟩
  intro m hm j hj
  have h := seqIdsFrom_get m 0 hm j hj
  rwa [Nat.zero_add] at h

theorem C10_witness :
    isSeq [(⟨"1", 2, true⟩ : ViewerData), ⟨"2", 3, false⟩] ∧
    (isSeq initialViewers ∧
      isSeq (addViewer [(⟨"1", 2, true⟩ : ViewerData), ⟨"2", 3, false⟩]) ∧
      isSeq (removeViewer [(⟨"1", 2, true⟩ : ViewerData), ⟨"2", 3, false⟩] "1") ∧
      isSeq (rehydrateViewers [(⟨"7", 4, true⟩ : ViewerData), ⟨"9", 5, false⟩]) ∧
      (∀ (m : List ViewerData), isSeq m →
        ∀ (j : Nat) (hj : j < m.length), (m.get ⟨j, hj⟩).id = toString (j + 1))) := by
  have hseq : isSeq [(⟨"1", 2, true⟩ : ViewerData), ⟨"2", 3, false⟩] := ⟨rfl, rfl, trivial⟩
  exact ⟨hseq, C10_sequential_ids hseq "1" [⟨"7", 4, true⟩, ⟨"9", 5, false⟩]⟩

end DicomViewer
